import Mathlib

/-!
Verification of the shadow-ai-hunter normalization-and-matching pipeline.

The Go source is shallowly embedded: Go strings are modelled as `List Char`
(`Str`), Go maps as association lists with overwrite-on-insert semantics,
`time.Time` as a civil date-time record (`GoTime`), and fallible operations
as `Option`/`Except`.  File I/O is kept at the boundary: each parser's
`Parse` takes the outcome of reading the file (an `Except` value) instead of
a path.  Standard-library helpers used by the source (`strings.*`,
`strconv.*`, `time.Parse`, `net/url.Hostname`) are modelled as executable
functions restricted to the ASCII/decimal forms the log formats use.
-/

/-- Go strings, modelled as lists of characters. -/
abbrev Str := List Char

/-! ## Models of Go `strings` helpers -/

/-- ASCII whitespace recognizer, model of the `unicode.IsSpace` class used by
`strings.Fields` and `strings.TrimSpace` (restricted to ASCII). -/
def isSpaceChar (c : Char) : Bool :=
  c == ' ' || c == Char.ofNat 9 || c == Char.ofNat 10 || c == Char.ofNat 11 ||
  c == Char.ofNat 12 || c == Char.ofNat 13

/-- ASCII decimal digit test. -/
def isDigitChar (c : Char) : Bool := 48 ≤ c.toNat && c.toNat ≤ 57

/-- Model of Go `unicode.ToLower` on one character (ASCII range). -/
def toLowerC (c : Char) : Char :=
  if 65 ≤ c.toNat ∧ c.toNat ≤ 90 then Char.ofNat (c.toNat + 32) else c

/-- Model of Go `strings.ToLower` (ASCII range). -/
def sToLower (s : Str) : Str := s.map toLowerC

/-- Model of Go `strings.Split(s, ".")`: dot-separated labels, empty labels
kept, never returns an empty list. -/
def splitDot : Str → List Str
  | [] => [[]]
  | c :: rest =>
    match splitDot rest with
    | [] => [[]]
    | p :: ps => if c = '.' then [] :: p :: ps else (c :: p) :: ps

/-- Model of Go `strings.Join(parts, string(sep))` for a one-character
separator. -/
def joinSep (sep : Char) : List Str → Str
  | [] => []
  | [p] => p
  | p :: q :: ps => p ++ sep :: joinSep sep (q :: ps)

/-- `strings.Join(parts, ".")`. -/
def joinDot : List Str → Str := joinSep '.'

/-- Model of `strings.Fields`: split around runs of whitespace. -/
def fieldsAux : Str → Str → List Str
  | [], acc => if acc = [] then [] else [acc.reverse]
  | c :: rest, acc =>
    if isSpaceChar c then
      if acc = [] then fieldsAux rest [] else acc.reverse :: fieldsAux rest []
    else fieldsAux rest (c :: acc)

/-- Model of Go `strings.Fields`. -/
def fieldsOf (s : Str) : List Str := fieldsAux s []

/-- Model of Go `strings.TrimSpace` (ASCII whitespace). -/
def trimSpace (s : Str) : Str :=
  ((s.dropWhile isSpaceChar).reverse.dropWhile isSpaceChar).reverse

/-- Model of Go `strings.TrimSuffix(s, ".")`: removes one trailing dot if
present. -/
def trimSuffixDot (s : Str) : Str :=
  match s.reverse with
  | '.' :: r => r.reverse
  | _ => s

/-- Boolean prefix test (`strings.HasPrefix` with the arguments in
(pattern, string) order). -/
def strStartsWith : Str → Str → Bool
  | [], _ => true
  | _ :: _, [] => false
  | p :: ps, c :: cs => p = c && strStartsWith ps cs

/-- Model of Go `strings.Index(s, pat)`; `none` plays the role of `-1`. -/
def indexOfSub : Str → Str → Option Nat
  | [], pat => if strStartsWith pat [] then some 0 else none
  | c :: rest, pat =>
    if strStartsWith pat (c :: rest) then some 0
    else (indexOfSub rest pat).map (fun n => n + 1)

/-- `true` iff `pat` occurs inside `s`: model of `strings.Contains`. -/
def hasSub (s pat : Str) : Bool := (indexOfSub s pat).isSome

/-- Split at the first occurrence of `sep`; `some (before, after)` on a hit.
Models `strings.SplitN(s, string(sep), 2)` (both parts) and
`strings.Index` for one character. -/
def breakAt (sep : Char) : Str → Option (Str × Str)
  | [] => none
  | c :: rest =>
    if c = sep then some ([], rest)
    else (breakAt sep rest).map (fun p => (c :: p.1, p.2))

/-- Index of the last occurrence of a character (model of
`strings.LastIndex` for one character). -/
def lastIndexOfChar (c : Char) : Str → Option Nat
  | [] => none
  | a :: rest =>
    match lastIndexOfChar c rest with
    | some j => some (j + 1)
    | none => if a = c then some 0 else none

/-- Numeric value of a digit string (used by the `strconv` models). -/
def natOfDigits (s : Str) : Nat := s.foldl (fun acc c => acc * 10 + (c.toNat - 48)) 0

/-! ## Go maps as association lists

A Go `map[string]V` is modelled as a `List (Str × V)` in which insertion
overwrites the binding of an existing key in place and appends a fresh key at
the end.  Built this way from `[]`, the key list never contains duplicates,
so `List.length` models Go's `len(m)`. -/

/-- Map lookup (`v, ok := m[k]`). -/
def mapGet? {α : Type} (m : List (Str × α)) (k : Str) : Option α :=
  match m with
  | [] => none
  | (k', v) :: rest => if k' = k then some v else mapGet? rest k

/-- Map insertion (`m[k] = v`): overwrite in place, append if absent. -/
def mapUpd {α : Type} (m : List (Str × α)) (k : Str) (v : α) : List (Str × α) :=
  match m with
  | [] => [(k, v)]
  | (k', v') :: rest => if k' = k then (k, v) :: rest else (k', v') :: mapUpd rest k v

/-- Counter increment (`m[k]++` where a missing key reads as `0`). -/
def mapInc (m : List (Str × Nat)) (k : Str) : List (Str × Nat) :=
  match m with
  | [] => [(k, 1)]
  | (k', v) :: rest => if k' = k then (k', v + 1) :: rest else (k', v) :: mapInc rest k

/-- Left fold of insertions, the spine of catalog construction. -/
def writeList {α : Type} (init : List (Str × α)) (l : List (Str × α)) : List (Str × α) :=
  l.foldl (fun m p => mapUpd m p.1 p.2) init

/-- `orTry a b` is `a` when `a` carries a value, else `b`. -/
def orTry {α : Type} (a b : Option α) : Option α :=
  match a with
  | some v => some v
  | none => b

/-! ## Time model

Go `time.Time` values that the pipeline produces are civil date-times; they
are modelled by their broken-down fields.  `GoTime.zero` is Go's zero time
(January 1, year 1, 00:00:00 UTC). -/

/-- Civil date-time, the model of Go `time.Time` for this pipeline. -/
structure GoTime where
  year : Int
  month : Nat
  day : Nat
  hour : Nat
  minute : Nat
  second : Nat
  deriving DecidableEq

/-- Go's zero `time.Time`: January 1 of year 1, 00:00:00. -/
def GoTime.zero : GoTime := ⟨1, 1, 1, 0, 0, 0⟩

/-- Gregorian leap-year test (as in Go `time.isLeap`). -/
def isLeapYear (y : Int) : Bool := y % 4 = 0 && (y % 100 ≠ 0 || y % 400 = 0)

/-- Days in a month (`leap` selects February's length). -/
def daysInMonth (leap : Bool) (mo : Nat) : Nat :=
  if mo = 2 then (if leap then 29 else 28)
  else if mo = 4 ∨ mo = 6 ∨ mo = 9 ∨ mo = 11 then 30 else 31

/-- Model of Go `t.AddDate(y, 0, 0)` for a `t` whose month/day are valid in
`t`'s own year: only a February 29 landing in a non-leap year needs Go's
`Date` normalization, which turns it into March 1. -/
def addYears (t : GoTime) (y : Nat) : GoTime :=
  if t.month = 2 ∧ t.day = 29 ∧ isLeapYear (t.year + (y : Int)) = false
  then ⟨t.year + (y : Int), 3, 1, t.hour, t.minute, t.second⟩
  else ⟨t.year + (y : Int), t.month, t.day, t.hour, t.minute, t.second⟩

/-- Model of Go `time.Unix(sec, 0).UTC()` (civil-from-days conversion). -/
def unixToGoTime (sec : Int) : GoTime :=
  let days : Int := Int.ediv sec 86400
  let sod : Nat := (Int.emod sec 86400).toNat
  let z : Int := days + 719468
  let era : Int := Int.ediv z 146097
  let doe : Nat := (z - era * 146097).toNat
  let yoe : Nat := (doe - doe / 1460 + doe / 36524 - doe / 146096) / 365
  let y : Int := (yoe : Int) + era * 400
  let doy : Nat := doe - (365 * yoe + yoe / 4 - yoe / 100)
  let mp : Nat := (5 * doy + 2) / 153
  let d : Nat := doy - (153 * mp + 2) / 5 + 1
  let mo : Nat := if mp < 10 then mp + 3 else mp - 9
  ⟨if mo ≤ 2 then y + 1 else y, mo, d, sod / 3600, (sod % 3600) / 60, sod % 60⟩

/-! ## Data model (`parsers/parser.go`, `analyzer/analyzer.go`) -/

/-- `parsers.LogEntry`: the normalized record every parser produces. -/
structure LogEntry where
  Timestamp : GoTime
  SourceIP : Str
  Domain : Str
  URL : Str
  Method : Str
  StatusCode : Str
  BytesSent : Int
  RawLine : Str
  deriving DecidableEq

/-- `analyzer.AIService`: one catalog record. -/
structure AIService where
  Name : Str
  Category : Str
  Domains : List Str
  deriving DecidableEq

/-- `analyzer.Finding`: a matched event. -/
structure Finding where
  Timestamp : GoTime
  SourceIP : Str
  ServiceName : Str
  Category : Str
  Domain : Str
  URL : Str
  Method : Str
  StatusCode : Str
  BytesSent : Int
  deriving DecidableEq

/-- `analyzer.Summary`. -/
structure Summary where
  TotalLogsScanned : Nat
  TotalFindings : Nat
  UniqueUsers : Nat
  UniqueServices : Nat
  Findings : List Finding
  ByUser : List (Str × Nat)
  ByService : List (Str × Nat)
  deriving DecidableEq

/-- The analyzer's domain index `map[string]AIService`. -/
abbrev GoMap := List (Str × AIService)

/-! ## Catalog construction (`New`, `LoadCustomDomains`) -/

/-- The double loop shared by `New` and `LoadCustomDomains`: insert every
domain of every service, lower-cased, into the index. -/
def buildDomainMap (services : List AIService) (init : GoMap) : GoMap :=
  services.foldl (fun m svc => svc.Domains.foldl (fun m2 d => mapUpd m2 (sToLower d) svc) m) init

/-- `analyzer.New` (the in-memory part: index construction from the decoded
service list). -/
def New (services : List AIService) : GoMap := buildDomainMap services []

/-- `analyzer.LoadCustomDomains` (in-memory part: merge the decoded custom
service list into an existing index). -/
def LoadCustomDomains (m : GoMap) (services : List AIService) : GoMap :=
  buildDomainMap services m

/-- The flattened write sequence of `buildDomainMap`. -/
def flattenServices (services : List AIService) : List (Str × AIService) :=
  (services.map (fun svc => svc.Domains.map (fun d => (sToLower d, svc)))).flatten

/-! ## Domain matching (`matchDomain`) -/

/-- Return the first candidate that is a key of the index (the sequential
lookups of the suffix loop). -/
def firstHit (m : GoMap) : List Str → Option AIService
  | [] => none
  | c :: cs =>
    match mapGet? m c with
    | some svc => some svc
    | none => firstHit m cs

/-- The index sequence `start, start+1, ...` of `len` loop iterations. -/
def idxList : Nat → Nat → List Nat
  | _, 0 => []
  | s, n + 1 => s :: idxList (s + 1) n

/-- `analyzer.matchDomain`: lower-case, exact lookup, then the suffix loop
`for i := 1; i < len(parts)-1; i++` over `strings.Join(parts[i:], ".")`. -/
def matchDomain (m : GoMap) (domain : Str) : Option AIService :=
  let d := sToLower domain
  match mapGet? m d with
  | some svc => some svc
  | none =>
    let parts := splitDot d
    firstHit m ((idxList 1 (parts.length - 1 - 1)).map (fun i => joinDot (parts.drop i)))

/-! ## Aggregation (`Analyze`) -/

/-- Construction of a `Finding` from a matched entry (the struct literal in
`Analyze`). -/
def mkFinding (entry : LogEntry) (svc : AIService) : Finding :=
  ⟨entry.Timestamp, entry.SourceIP, svc.Name, svc.Category, entry.Domain,
   entry.URL, entry.Method, entry.StatusCode, entry.BytesSent⟩

/-- One iteration of the `Analyze` loop. -/
def analyzeStep (m : GoMap) (s : Summary) (entry : LogEntry) : Summary :=
  match matchDomain m entry.Domain with
  | none => s
  | some svc =>
    { s with Findings := s.Findings ++ [mkFinding entry svc],
             ByUser := mapInc s.ByUser entry.SourceIP,
             ByService := mapInc s.ByService svc.Name }

/-- `analyzer.Analyze`. -/
def Analyze (m : GoMap) (entries : List LogEntry) : Summary :=
  let s := entries.foldl (analyzeStep m) ⟨entries.length, 0, 0, 0, [], [], []⟩
  { s with TotalFindings := s.Findings.length,
           UniqueUsers := s.ByUser.length,
           UniqueServices := s.ByService.length }

/-- The finding (if any) an entry contributes. -/
def findingOf (m : GoMap) (entry : LogEntry) : Option Finding :=
  (matchDomain m entry.Domain).map (mkFinding entry)

/-! ## Models of `strconv` number parsing -/

/-- Model of `strconv.ParseFloat(s, 64)` followed by `int64(...)` truncation
toward zero, restricted to plain decimal forms (optional sign, integer part,
optional fractional part) as used by log timestamps. -/
def parseUnsignedSeconds (s : Str) : Option Nat :=
  let ip := s.takeWhile isDigitChar
  let rest := s.dropWhile isDigitChar
  match rest with
  | [] => if ip = [] then none else some (natOfDigits ip)
  | '.' :: fr =>
    if fr.all isDigitChar ∧ ¬(ip = [] ∧ fr = []) then some (natOfDigits ip) else none
  | _ => none

/-- Signed wrapper for `parseUnsignedSeconds`. -/
def parseUnixSeconds (s : Str) : Option Int :=
  match s with
  | '-' :: r => (parseUnsignedSeconds r).map (fun n => -(n : Int))
  | '+' :: r => (parseUnsignedSeconds r).map (fun n => (n : Int))
  | r => (parseUnsignedSeconds r).map (fun n => (n : Int))

/-- Model of `strconv.ParseInt(s, 10, 64)` (plain decimal, overflow
ignored). -/
def parseIntDec (s : Str) : Option Int :=
  match s with
  | '-' :: r => if r ≠ [] ∧ r.all isDigitChar then some (-(natOfDigits r : Int)) else none
  | '+' :: r => if r ≠ [] ∧ r.all isDigitChar then some ((natOfDigits r : Int)) else none
  | r => if r ≠ [] ∧ r.all isDigitChar then some ((natOfDigits r : Int)) else none

/-! ## Models of `time.Parse` for the layouts the source uses -/

/-- One or two decimal digits, greedily (Go layout element `2` / `15`). -/
def pNum12 : Str → Option (Nat × Str)
  | [] => none
  | [c1] => if isDigitChar c1 then some (c1.toNat - 48, []) else none
  | c1 :: c2 :: rest =>
    if isDigitChar c1 then
      if isDigitChar c2 then some ((c1.toNat - 48) * 10 + (c2.toNat - 48), rest)
      else some (c1.toNat - 48, c2 :: rest)
    else none

/-- Exactly two decimal digits (Go layout elements `01`, `04`, `05`). -/
def pNum2 : Str → Option (Nat × Str)
  | c1 :: c2 :: rest =>
    if isDigitChar c1 ∧ isDigitChar c2 then
      some ((c1.toNat - 48) * 10 + (c2.toNat - 48), rest)
    else none
  | _ => none

/-- Exactly four decimal digits (Go layout element `2006`). -/
def pNum4 (s : Str) : Option (Nat × Str) :=
  match pNum2 s with
  | some (hi, r1) =>
    match pNum2 r1 with
    | some (lo, r2) => some (hi * 100 + lo, r2)
    | none => none
  | none => none

/-- Three-letter English month name, matched case-insensitively as Go's
layout matcher does. -/
def monthNum (s : Str) : Option Nat :=
  let ls := sToLower s
  if ls = ("jan").toList then some 1
  else if ls = ("feb").toList then some 2
  else if ls = ("mar").toList then some 3
  else if ls = ("apr").toList then some 4
  else if ls = ("may").toList then some 5
  else if ls = ("jun").toList then some 6
  else if ls = ("jul").toList then some 7
  else if ls = ("aug").toList then some 8
  else if ls = ("sep").toList then some 9
  else if ls = ("oct").toList then some 10
  else if ls = ("nov").toList then some 11
  else if ls = ("dec").toList then some 12
  else none

/-- Range validation performed by Go `time.Parse` before building the
`time.Time` (month, day-in-month for the parsed year, hour, minute,
second). -/
def mkCivil (y : Int) (mo d h mi se : Nat) : Option GoTime :=
  if 1 ≤ mo ∧ mo ≤ 12 ∧ 1 ≤ d ∧ d ≤ daysInMonth (isLeapYear y) mo ∧
     h ≤ 23 ∧ mi ≤ 59 ∧ se ≤ 59
  then some ⟨y, mo, d, h, mi, se⟩ else none

/-- `hh:mm:ss` with a 1-2 digit hour (layout `15:04:05`). -/
def pClock (s : Str) : Option (Nat × Nat × Nat × Str) :=
  match pNum12 s with
  | some (h, ':' :: r1) =>
    match pNum2 r1 with
    | some (mi, ':' :: r2) =>
      match pNum2 r2 with
      | some (se, r3) => some (h, mi, se, r3)
      | none => none
    | _ => none
  | _ => none

/-- Model of `time.Parse("Jan 2 15:04:05", s)`: year-less syslog timestamp;
Go gives such a parse year 0 (a leap year, so February 29 is accepted). -/
def mdtParse (s : Str) : Option GoTime :=
  match s with
  | m1 :: m2 :: m3 :: ' ' :: r1 =>
    match monthNum [m1, m2, m3] with
    | some mo =>
      match pNum12 r1 with
      | some (d, ' ' :: r2) =>
        match pClock r2 with
        | some (h, mi, se, []) => mkCivil 0 mo d h mi se
        | _ => none
      | _ => none
    | none => none
  | _ => none

/-- Skip an optional fractional-seconds suffix (`.` plus at least one
digit), as Go's RFC3339 parser does. -/
def skipFrac : Str → Str
  | '.' :: r => if (r.takeWhile isDigitChar) = [] then '.' :: r else r.dropWhile isDigitChar
  | s => s

/-- Numeric time-zone offset `hh:mm` (after a sign), structure only. -/
def zoneOk (s : Str) : Bool :=
  match pNum2 s with
  | some (_, ':' :: r1) =>
    match pNum2 r1 with
    | some (_, []) => true
    | _ => false
  | _ => false

/-- Model of `time.Parse(time.RFC3339, s)` (offsets parsed and discarded;
the civil fields are kept as written, which is all the pipeline compares). -/
def rfc3339Parse (s : Str) : Option GoTime :=
  match pNum4 s with
  | some (y, '-' :: r1) =>
    match pNum2 r1 with
    | some (mo, '-' :: r2) =>
      match pNum2 r2 with
      | some (d, 'T' :: r3) =>
        match pClock r3 with
        | some (h, mi, se, r4) =>
          match skipFrac r4 with
          | ['Z'] => mkCivil (y : Int) mo d h mi se
          | '+' :: z => if zoneOk z then mkCivil (y : Int) mo d h mi se else none
          | '-' :: z => if zoneOk z then mkCivil (y : Int) mo d h mi se else none
          | _ => none
        | none => none
      | _ => none
    | _ => none
  | _ => none

/-- Layout `2006-01-02T15:04:05`. -/
def isoTParse (s : Str) : Option GoTime :=
  match pNum4 s with
  | some (y, '-' :: r1) =>
    match pNum2 r1 with
    | some (mo, '-' :: r2) =>
      match pNum2 r2 with
      | some (d, 'T' :: r3) =>
        match pClock r3 with
        | some (h, mi, se, []) => mkCivil (y : Int) mo d h mi se
        | _ => none
      | _ => none
    | _ => none
  | _ => none

/-- Layout `2006-01-02 15:04:05`. -/
def isoSpaceParse (s : Str) : Option GoTime :=
  match pNum4 s with
  | some (y, '-' :: r1) =>
    match pNum2 r1 with
    | some (mo, '-' :: r2) =>
      match pNum2 r2 with
      | some (d, ' ' :: r3) =>
        match pClock r3 with
        | some (h, mi, se, []) => mkCivil (y : Int) mo d h mi se
        | _ => none
      | _ => none
    | _ => none
  | _ => none

/-- Layout `01/02/2006 15:04:05`. -/
def usParse (s : Str) : Option GoTime :=
  match pNum2 s with
  | some (mo, '/' :: r1) =>
    match pNum2 r1 with
    | some (d, '/' :: r2) =>
      match pNum4 r2 with
      | some (y, ' ' :: r3) =>
        match pClock r3 with
        | some (h, mi, se, []) => mkCivil (y : Int) mo d h mi se
        | _ => none
      | _ => none
    | _ => none
  | _ => none

/-- Layout `02/Jan/2006:15:04:05 -0700` (Apache combined log). -/
def apacheParse (s : Str) : Option GoTime :=
  match pNum2 s with
  | some (d, '/' :: m1 :: m2 :: m3 :: '/' :: r1) =>
    match monthNum [m1, m2, m3] with
    | some mo =>
      match pNum4 r1 with
      | some (y, ':' :: r2) =>
        match pClock r2 with
        | some (h, mi, se, [' ', sgn, z1, z2, z3, z4]) =>
          if (sgn = '+' ∨ sgn = '-') ∧ isDigitChar z1 ∧ isDigitChar z2 ∧
             isDigitChar z3 ∧ isDigitChar z4
          then mkCivil (y : Int) mo d h mi se else none
        | _ => none
      | _ => none
    | none => none
  | _ => none

/-- Layout `Jan 2 15:04:05 2006`. -/
def syslogYearParse (s : Str) : Option GoTime :=
  match s with
  | m1 :: m2 :: m3 :: ' ' :: r1 =>
    match monthNum [m1, m2, m3] with
    | some mo =>
      match pNum12 r1 with
      | some (d, ' ' :: r2) =>
        match pClock r2 with
        | some (h, mi, se, ' ' :: r3) =>
          match pNum4 r3 with
          | some (y, []) => mkCivil (y : Int) mo d h mi se
          | _ => none
        | _ => none
      | _ => none
    | none => none
  | _ => none

/-- Layout `2006-01-02`. -/
def dateOnlyParse (s : Str) : Option GoTime :=
  match pNum4 s with
  | some (y, '-' :: r1) =>
    match pNum2 r1 with
    | some (mo, '-' :: r2) =>
      match pNum2 r2 with
      | some (d, []) => mkCivil (y : Int) mo d 0 0 0
      | _ => none
    | _ => none
  | _ => none

/-- First format that parses wins; none ⇒ zero time (the loop in
`parseFlexibleTime`). -/
def tryFormats : List (Str → Option GoTime) → Str → GoTime
  | [], _ => GoTime.zero
  | f :: rest, s =>
    match f s with
    | some t => t
    | none => tryFormats rest s

/-- `parsers.parseFlexibleTime`. -/
def parseFlexibleTime (s : Str) : GoTime :=
  tryFormats [rfc3339Parse, isoTParse, isoSpaceParse, usParse, apacheParse,
              syslogYearParse, dateOnlyParse] (trimSpace s)

/-! ## URL host extraction (`extractDomain`, model of `net/url`) -/

/-- Model of `url.Parse(raw).Hostname()` for URLs with a `://` scheme
separator whose authority Go parses without error: take the authority
component, drop any userinfo, strip IPv6 brackets, and strip a trailing
`:port` (digits-only, possibly empty) after the last colon. -/
def urlHostname (s : Str) : Str :=
  match indexOfSub s (("://").toList) with
  | none => []
  | some i =>
    let afterScheme := s.drop (i + 3)
    let authority := afterScheme.takeWhile (fun c => ¬(c = '/' ∨ c = '?' ∨ c = '#'))
    let hostport :=
      match lastIndexOfChar '@' authority with
      | some j => authority.drop (j + 1)
      | none => authority
    match hostport with
    | '[' :: rest => rest.takeWhile (fun c => c ≠ ']')
    | _ =>
      match lastIndexOfChar ':' hostport with
      | some j =>
        if (hostport.drop (j + 1)).all isDigitChar then hostport.take j else hostport
      | none => hostport

/-- `parsers.extractDomain`: host of a URL, or the part before `:` for bare
`host:port` CONNECT targets; lower-cased. -/
def extractDomain (rawURL : Str) : Str :=
  if hasSub rawURL (("://").toList) = false then
    sToLower (match breakAt ':' rawURL with
              | some p => p.1
              | none => rawURL)
  else
    sToLower (urlHostname rawURL)

/-! ## I/O boundary -/

/-- Opaque stand-in for a Go I/O error (`os.Open` / `Scanner.Err`
failures). -/
structure IOError where
  code : Nat
  deriving DecidableEq

/-- Errors `CSVParser.Parse` can return.  `ioErr` models `os.Open` and
`csv.ReadAll` failures (the decode step is part of reading the file in this
embedding); the other two are the file-level content checks of the
source. -/
inductive CSVError where
  | ioErr (e : IOError)
  | noDataRows
  | missingDestCol
  deriving DecidableEq

/-! ## Squid parser (`parsers/squid.go`) -/

/-- `parsers.parseSquidLine`.  The status code is what follows the first
`/` of the `ACTION/CODE` field (empty when there is no slash); a failed
bytes parse contributes 0. -/
def parseSquidLine (line : Str) : Option LogEntry :=
  match fieldsOf line with
  | f0 :: _f1 :: f2 :: f3 :: f4 :: f5 :: f6 :: _f7 :: _rest =>
    match parseUnixSeconds f0 with
    | none => none
    | some sec =>
      some ⟨unixToGoTime sec, f2, extractDomain f6, f6, f5,
            (match breakAt '/' f3 with
             | some p => p.2
             | none => []),
            (parseIntDec f4).getD 0, line⟩
  | _ => none

/-- `true` for lines the scanning loops skip outright: blank lines and
`#`-comments. -/
def skipLine (line : Str) : Bool :=
  trimSpace line = [] || strStartsWith (("#").toList) line

/-- The scanning loop of `SquidParser.Parse`. -/
def squidProcessLines : List Str → List LogEntry
  | [] => []
  | line :: rest =>
    if skipLine line then squidProcessLines rest
    else
      match parseSquidLine line with
      | none => squidProcessLines rest
      | some e => e :: squidProcessLines rest

namespace SquidParser

/-- `SquidParser.Parse`; the argument is the outcome of opening and scanning
the file. -/
def Parse (input : Except IOError (List Str)) : Except IOError (List LogEntry) :=
  match input with
  | Except.error e => Except.error e
  | Except.ok lines => Except.ok (squidProcessLines lines)

end SquidParser

/-! ## DNS parser (`parsers/dns.go`) -/

/-- `parsers.parseSimpleDNS`. -/
def parseSimpleDNS (line : Str) : Option LogEntry :=
  match fieldsOf line with
  | f0 :: f1 :: f2 :: _ =>
    match rfc3339Parse f0 with
    | none => none
    | some ts => some ⟨ts, f1, sToLower (trimSuffixDot f2), [], [], [], 0, line⟩
  | _ => none

/-- The timestamp-text extraction of `parseDnsmasq`: text before `query[`,
with a `dnsmasq` marker and a possible hostname stripped. -/
def dnsmasqTsPart (line : Str) : Str :=
  match indexOfSub line (("query[").toList) with
  | none => []
  | some qIdx =>
    let tsPart := trimSpace (line.take qIdx)
    match indexOfSub tsPart (("dnsmasq").toList) with
    | some di =>
      if 0 < di then
        let tp := trimSpace (tsPart.take di)
        let tf := fieldsOf tp
        if 4 ≤ tf.length then joinSep ' ' (tf.take 3) else tp
      else tsPart
    | none => tsPart

/-- The timestamp `parseDnsmasq` stores: syslog month-day-time plus the
current wall-clock year (via `AddDate`), or the zero time. `nowYear` is
`time.Now().Year()`. -/
def dnsmasqTs (nowYear : Nat) (line : Str) : GoTime :=
  match mdtParse (dnsmasqTsPart line) with
  | none => GoTime.zero
  | some t => addYears t nowYear

/-- `parsers.parseDnsmasq`. -/
def parseDnsmasq (nowYear : Nat) (line : Str) : Option LogEntry :=
  match indexOfSub line (("query[").toList) with
  | none => none
  | some qIdx =>
    match indexOfSub (line.drop qIdx) (("] ").toList) with
    | none => none
    | some closeBracket =>
      match fieldsOf ((line.drop qIdx).drop (closeBracket + 2)) with
      | p0 :: p1 :: p2 :: _ =>
        if p1 = ("from").toList then
          some ⟨dnsmasqTs nowYear line, p2, sToLower (trimSuffixDot p0), [], [], [], 0, line⟩
        else none
      | _ => none

/-- One line of the DNS scanning loop: simple dialect first, then
dnsmasq. -/
def dnsLineEntry (nowYear : Nat) (line : Str) : Option LogEntry :=
  match parseSimpleDNS line with
  | some e => some e
  | none => parseDnsmasq nowYear line

/-- The scanning loop of `DNSParser.Parse`. -/
def dnsProcessLines (nowYear : Nat) : List Str → List LogEntry
  | [] => []
  | line :: rest =>
    if skipLine line then dnsProcessLines nowYear rest
    else
      match dnsLineEntry nowYear line with
      | none => dnsProcessLines nowYear rest
      | some e => e :: dnsProcessLines nowYear rest

namespace DNSParser

/-- `DNSParser.Parse`; `nowYear` is the wall-clock year the dnsmasq dialect
consults. -/
def Parse (nowYear : Nat) (input : Except IOError (List Str)) :
    Except IOError (List LogEntry) :=
  match input with
  | Except.error e => Except.error e
  | Except.ok lines => Except.ok (dnsProcessLines nowYear lines)

end DNSParser

/-! ## CSV parser (`parsers/csv.go`) -/

/-- Logical column aliases (`findCol` call sites in `CSVParser.Parse`). -/
def tsNames : List Str :=
  [("timestamp").toList, ("time").toList, ("date").toList, ("datetime").toList]

/-- Source-IP column aliases. -/
def srcNames : List Str :=
  [("source_ip").toList, ("src_ip").toList, ("src").toList, ("client_ip").toList,
   ("source").toList]

/-- Destination column aliases. -/
def dstNames : List Str :=
  [("destination").toList, ("dst").toList, ("domain").toList, ("host").toList,
   ("url").toList, ("dest").toList, ("dst_host").toList]

/-- Bytes column aliases. -/
def bytesNames : List Str :=
  [("bytes").toList, ("bytes_sent").toList, ("size").toList, ("content_length").toList]

/-- Action/status column aliases. -/
def actionNames : List Str :=
  [("action").toList, ("status").toList, ("status_code").toList, ("result").toList]

/-- `parsers.mapColumns`: header name (lower-cased, trimmed) to position;
later duplicates overwrite. -/
def mapColumns (header : List Str) : List (Str × Nat) :=
  (header.enum).foldl (fun m p => mapUpd m (sToLower (trimSpace p.2)) p.1) []

/-- `parsers.findCol`; `none` plays the role of `-1`. -/
def findCol (colMap : List (Str × Nat)) : List Str → Option Nat
  | [] => none
  | n :: rest =>
    match mapGet? colMap n with
    | some i => some i
    | none => findCol colMap rest

/-- Fetch a cell under the `col >= 0 && col < len(row)` guard of the
source. -/
def getCell (row : List Str) (col : Option Nat) : Option Str :=
  match col with
  | some i => row.get? i
  | none => none

/-- The per-row struct construction of `CSVParser.Parse`: unmapped or
out-of-range columns leave a field at its zero value; a destination cell
containing `://` is kept as the URL and its host becomes the domain,
otherwise the trimmed cell, lower-cased, is the domain. -/
def csvRowEntry (tsCol srcCol dstCol bytesCol actionCol : Option Nat)
    (row : List Str) : LogEntry :=
  ⟨(match getCell row tsCol with
    | some cell => parseFlexibleTime cell
    | none => GoTime.zero),
   (match getCell row srcCol with
    | some cell => trimSpace cell
    | none => []),
   (match getCell row dstCol with
    | some cell =>
      if hasSub (trimSpace cell) (("://").toList) then extractDomain (trimSpace cell)
      else sToLower (trimSpace cell)
    | none => []),
   (match getCell row dstCol with
    | some cell =>
      if hasSub (trimSpace cell) (("://").toList) then trimSpace cell else []
    | none => []),
   [],
   (match getCell row actionCol with
    | some cell => trimSpace cell
    | none => []),
   (match getCell row bytesCol with
    | some cell => (parseIntDec (trimSpace cell)).getD 0
    | none => 0),
   joinSep ',' row⟩

/-- The data-row loop of `CSVParser.Parse`: keep only rows whose computed
domain is non-empty. -/
def csvRows (tsCol srcCol dstCol bytesCol actionCol : Option Nat) :
    List (List Str) → List LogEntry
  | [] => []
  | row :: rest =>
    let e := csvRowEntry tsCol srcCol dstCol bytesCol actionCol row
    if e.Domain = [] then csvRows tsCol srcCol dstCol bytesCol actionCol rest
    else e :: csvRows tsCol srcCol dstCol bytesCol actionCol rest

/-- The content part of `CSVParser.Parse`, applied to the decoded record
list. -/
def csvParseRecords (records : List (List Str)) : Except CSVError (List LogEntry) :=
  if records.length < 2 then Except.error CSVError.noDataRows
  else
    match records with
    | [] => Except.error CSVError.noDataRows
    | hdr :: rest =>
      let colMap := mapColumns hdr
      let tsCol := findCol colMap tsNames
      let srcCol := findCol colMap srcNames
      let bytesCol := findCol colMap bytesNames
      let actionCol := findCol colMap actionNames
      match findCol colMap dstNames with
      | none => Except.error CSVError.missingDestCol
      | some dc => Except.ok (csvRows tsCol srcCol (some dc) bytesCol actionCol rest)

namespace CSVParser

/-- `CSVParser.Parse`; the argument is the outcome of opening the file and
running `csv.ReadAll` over it. -/
def Parse (input : Except IOError (List (List Str))) : Except CSVError (List LogEntry) :=
  match input with
  | Except.error e => Except.error (CSVError.ioErr e)
  | Except.ok records => csvParseRecords records

end CSVParser

/-- `findCol` hit on the destination aliases, as a Boolean on the record
list. -/
def dstColFound (records : List (List Str)) : Bool :=
  match records with
  | [] => false
  | hdr :: _ => (findCol (mapColumns hdr) dstNames).isSome
/-! ## Lemmas about the string helpers -/

theorem charOfNat_toNat {n : Nat} (h : n < 55296) : (Char.ofNat n).toNat = n := by
  have hv : n.isValidChar := Or.inl h
  simp [Char.ofNat, hv]
  rfl

theorem toLowerC_not_upper (c : Char) : ¬(65 ≤ (toLowerC c).toNat ∧ (toLowerC c).toNat ≤ 90) := by
  unfold toLowerC
  by_cases h : 65 ≤ c.toNat ∧ c.toNat ≤ 90
  · rw [if_pos h]
    rw [charOfNat_toNat (by omega)]
    omega
  · rw [if_neg h]
    exact h

theorem toLowerC_idem (c : Char) : toLowerC (toLowerC c) = toLowerC c := by
  have h := toLowerC_not_upper c
  conv_lhs => rw [toLowerC]
  rw [if_neg h]

theorem sToLower_idem (s : Str) : sToLower (sToLower s) = sToLower s := by
  unfold sToLower
  rw [List.map_map]
  exact List.map_congr_left (fun c _ => toLowerC_idem c)

theorem sToLower_nil : sToLower [] = [] := rfl

theorem splitDot_ne_nil (s : Str) : splitDot s ≠ [] := by
  induction s with
  | nil => simp [splitDot]
  | cons c rest ih =>
    unfold splitDot
    cases h : splitDot rest with
    | nil => exact absurd h ih
    | cons p ps => by_cases hc : c = '.' <;> simp [hc]

theorem splitDot_no_dot (s : Str) : ∀ p ∈ splitDot s, '.' ∉ p := by
  induction s with
  | nil => simp [splitDot]
  | cons c rest ih =>
    unfold splitDot
    cases h : splitDot rest with
    | nil => exact absurd h (splitDot_ne_nil rest)
    | cons p ps =>
      have hp : '.' ∉ p := ih p (by rw [h]; exact List.mem_cons_self p ps)
      have hps : ∀ q ∈ ps, '.' ∉ q := fun q hq => ih q (by rw [h]; exact List.mem_cons_of_mem p hq)
      by_cases hc : c = '.'
      · simp only [if_pos hc]
        intro q hq
        rcases List.mem_cons.mp hq with h1 | hq2
        · subst h1; simp
        · rcases List.mem_cons.mp hq2 with h1 | hq3
          · subst h1; exact hp
          · exact hps q hq3
      · simp only [if_neg hc]
        intro q hq
        rcases List.mem_cons.mp hq with h1 | hq2
        · subst h1
          intro hmem
          rcases List.mem_cons.mp hmem with h2 | h3
          · exact hc h2.symm
          · exact hp h3
        · exact hps q hq2

theorem joinDot_split (s : Str) : joinDot (splitDot s) = s := by
  induction s with
  | nil => rfl
  | cons c rest ih =>
    unfold splitDot
    cases h : splitDot rest with
    | nil => exact absurd h (splitDot_ne_nil rest)
    | cons p ps =>
      rw [h] at ih
      by_cases hc : c = '.'
      · simp only [if_pos hc]
        subst hc
        show joinSep '.' ([] :: p :: ps) = '.' :: rest
        cases ps with
        | nil => simpa [joinDot, joinSep] using ih
        | cons q qs => simpa [joinDot, joinSep] using ih
      · simp only [if_neg hc]
        cases ps with
        | nil => simpa [joinDot, joinSep] using congrArg (c :: ·) ih
        | cons q qs => simpa [joinDot, joinSep] using congrArg (c :: ·) ih

theorem splitDot_singleton (l : Str) (hl : '.' ∉ l) : splitDot l = [l] := by
  induction l with
  | nil => rfl
  | cons c rest ih =>
    have hc : c ≠ '.' := fun h => hl (h ▸ List.mem_cons_self c rest)
    have hrest : '.' ∉ rest := fun h => hl (List.mem_cons_of_mem c h)
    unfold splitDot
    rw [ih hrest]
    simp [hc]

theorem splitDot_append_no_dot (l s : Str) (hl : '.' ∉ l) (p : Str) (ps : List Str)
    (h : splitDot s = p :: ps) : splitDot (l ++ s) = (l ++ p) :: ps := by
  induction l with
  | nil => simpa using h
  | cons c rest ih =>
    have hc : c ≠ '.' := fun hcc => hl (hcc ▸ List.mem_cons_self c rest)
    have hrest : '.' ∉ rest := fun hm => hl (List.mem_cons_of_mem c hm)
    have ihr := ih hrest
    show splitDot (c :: (rest ++ s)) = _
    unfold splitDot
    rw [ihr]
    simp [hc]

theorem splitDot_join (L : List Str) (hL : ∀ l ∈ L, '.' ∉ l) (hne : L ≠ []) :
    splitDot (joinDot L) = L := by
  induction L with
  | nil => exact absurd rfl hne
  | cons l L' ih =>
    cases L' with
    | nil =>
      show splitDot (joinSep '.' [l]) = [l]
      exact splitDot_singleton l (hL l (List.mem_cons_self l []))
    | cons m M =>
      have hl : '.' ∉ l := hL l (List.mem_cons_self _ _)
      have hrest : ∀ x ∈ m :: M, '.' ∉ x := fun x hx => hL x (List.mem_cons_of_mem l hx)
      have ihr : splitDot (joinDot (m :: M)) = m :: M := ih hrest (by simp)
      show splitDot (joinSep '.' (l :: m :: M)) = l :: m :: M
      have : joinSep '.' (l :: m :: M) = l ++ '.' :: joinDot (m :: M) := by
        simp [joinSep, joinDot]
      have hsplit : splitDot ('.' :: joinDot (m :: M)) = [] :: m :: M := by
        unfold splitDot
        rw [ihr]
        simp
      rw [this, splitDot_append_no_dot l _ hl _ _ hsplit]
      simp

theorem mapGet?_mapUpd {α : Type} (m : List (Str × α)) (a k : Str) (v : α) :
    mapGet? (mapUpd m a v) k = if a = k then some v else mapGet? m k := by
  induction m with
  | nil => by_cases h : a = k <;> simp [mapUpd, mapGet?, h]
  | cons p rest ih =>
    obtain ⟨k', v'⟩ := p
    by_cases h1 : k' = a
    · subst h1
      by_cases h2 : k' = k <;> simp [mapUpd, mapGet?, h2]
    · by_cases h2 : k' = k
      · have h3 : ¬a = k := fun hak => h1 (h2.trans hak.symm)
        have h4 : ¬k = a := fun hka => h3 hka.symm
        simp [mapUpd, mapGet?, h1, h2, h3, h4]
      · simp [mapUpd, mapGet?, h1, h2, ih]

theorem writeList_lookup_cons {α : Type} (init : List (Str × α)) (p : Str × α)
    (l : List (Str × α)) : writeList init (p :: l) = writeList (mapUpd init p.1 p.2) l := rfl

/-- Writing a batch on top of `init` behaves like: the batch's own final
binding if it wrote the key, else `init`'s binding. -/
theorem writeList_lookup_or {α : Type} (l : List (Str × α)) :
    ∀ (init : List (Str × α)) (k : Str),
    mapGet? (writeList init l) k = orTry (mapGet? (writeList [] l) k) (mapGet? init k) := by
  induction l with
  | nil => intro init k; simp [writeList, mapGet?, orTry]
  | cons p rest ih =>
    intro init k
    rw [writeList_lookup_cons, writeList_lookup_cons, ih, ih (mapUpd [] p.1 p.2)]
    cases h : mapGet? (writeList [] rest) k with
    | some v => simp [orTry]
    | none =>
      simp only [orTry]
      rw [mapGet?_mapUpd, mapGet?_mapUpd]
      by_cases hpk : p.1 = k <;> simp [hpk, mapGet?]

theorem mapGet?_mapUpd_isSome {α : Type} (m : List (Str × α)) (a k : Str) (v : α)
    (h : (mapGet? m k).isSome) : (mapGet? (mapUpd m a v) k).isSome := by
  rw [mapGet?_mapUpd]
  by_cases hak : a = k <;> simp [hak, h]

theorem writeList_isSome_mono {α : Type} (l : List (Str × α)) :
    ∀ (init : List (Str × α)) (k : Str),
    (mapGet? init k).isSome → (mapGet? (writeList init l) k).isSome := by
  induction l with
  | nil => intro init k h; exact h
  | cons p rest ih =>
    intro init k h
    rw [writeList_lookup_cons]
    exact ih _ k (mapGet?_mapUpd_isSome init p.1 k p.2 h)

theorem writeList_mem_isSome {α : Type} (l : List (Str × α)) :
    ∀ (init : List (Str × α)) (k : Str),
    (∃ p ∈ l, p.1 = k) → (mapGet? (writeList init l) k).isSome := by
  induction l with
  | nil => rintro init k ⟨p, hp, _⟩; exact absurd hp (List.not_mem_nil p)
  | cons q rest ih =>
    rintro init k ⟨p, hp, hpk⟩
    rw [writeList_lookup_cons]
    rcases List.mem_cons.mp hp with h1 | h2
    · subst h1
      apply writeList_isSome_mono
      rw [mapGet?_mapUpd]
      simp [hpk]
    · exact ih _ k ⟨p, h2, hpk⟩

theorem mapInc_keys (m : List (Str × Nat)) (k : Str) :
    (mapInc m k).map Prod.fst =
      if k ∈ m.map Prod.fst then m.map Prod.fst else m.map Prod.fst ++ [k] := by
  induction m with
  | nil => simp [mapInc]
  | cons p rest ih =>
    obtain ⟨k', v⟩ := p
    by_cases h : k' = k
    · subst h
      simp [mapInc]
    · have hne : ¬k = k' := fun hk => h hk.symm
      simp only [mapInc, if_neg h, List.map_cons, List.mem_cons]
      rw [ih]
      by_cases hmem : k ∈ rest.map Prod.fst <;> simp [hmem, hne]

theorem mapInc_sum (m : List (Str × Nat)) (k : Str) :
    ((mapInc m k).map Prod.snd).sum = (m.map Prod.snd).sum + 1 := by
  induction m with
  | nil => simp [mapInc]
  | cons p rest ih =>
    obtain ⟨k', v⟩ := p
    by_cases h : k' = k
    · simp [mapInc, h]
      omega
    · simp [mapInc, h, ih]
      omega

theorem mapInc_length (m : List (Str × Nat)) (k : Str) :
    (mapInc m k).length =
      if k ∈ m.map Prod.fst then m.length else m.length + 1 := by
  have h := congrArg List.length (mapInc_keys m k)
  simp only [List.length_map] at h
  rw [h]
  by_cases hmem : k ∈ m.map Prod.fst <;> simp [hmem]

/-- Folding `mapInc` over a list of keys: resulting key set and no-duplicates
invariant. -/
theorem foldl_mapInc_keys (l : List Str) :
    ∀ (m0 : List (Str × Nat)),
    (((l.foldl mapInc m0).map Prod.fst).Nodup ∨ ¬(m0.map Prod.fst).Nodup) ∧
    (∀ x, x ∈ (l.foldl mapInc m0).map Prod.fst ↔ x ∈ m0.map Prod.fst ∨ x ∈ l) := by
  induction l with
  | nil => intro m0; constructor
           · by_cases h : (m0.map Prod.fst).Nodup
             · exact Or.inl (by simpa using h)
             · exact Or.inr h
           · intro x; simp
  | cons a rest ih =>
    intro m0
    have step_keys := mapInc_keys m0 a
    constructor
    · by_cases h : (m0.map Prod.fst).Nodup
      · left
        have hstep : ((mapInc m0 a).map Prod.fst).Nodup := by
          rw [step_keys]
          by_cases hmem : a ∈ m0.map Prod.fst
          · simpa [hmem] using h
          · simp only [if_neg hmem]
            exact List.Nodup.append h (List.nodup_singleton a)
              (by simpa [List.disjoint_singleton] using hmem)
        rcases (ih (mapInc m0 a)).1 with h1 | h2
        · exact h1
        · exact absurd hstep h2
      · exact Or.inr h
    · intro x
      have hmemIh := (ih (mapInc m0 a)).2 x
      rw [List.foldl_cons, hmemIh, step_keys]
      by_cases hmem : a ∈ m0.map Prod.fst
      · simp only [if_pos hmem, List.mem_cons]
        constructor
        · rintro (h1 | h2)
          · exact Or.inl h1
          · exact Or.inr (Or.inr h2)
        · rintro (h1 | h2 | h3)
          · exact Or.inl h1
          · exact Or.inl (h2 ▸ hmem)
          · exact Or.inr h3
      · simp only [if_neg hmem, List.mem_append, List.mem_singleton, List.mem_cons]
        tauto

theorem foldl_mapInc_sum (l : List Str) :
    ∀ (m0 : List (Str × Nat)),
    (((l.foldl mapInc m0).map Prod.snd).sum) = (m0.map Prod.snd).sum + l.length := by
  induction l with
  | nil => intro m0; simp
  | cons a rest ih =>
    intro m0
    rw [List.foldl_cons, ih, mapInc_sum]
    simp
    omega

theorem foldl_mapUpd_eq_writeList {α : Type} (pairs : List (Str × α)) :
    ∀ (init : List (Str × α)),
    pairs.foldl (fun m p => mapUpd m p.1 p.2) init = writeList init pairs := by
  intro init; rfl

theorem buildDomainMap_eq_writeList (services : List AIService) :
    ∀ (init : GoMap), buildDomainMap services init = writeList init (flattenServices services) := by
  induction services with
  | nil => intro init; rfl
  | cons svc rest ih =>
    intro init
    show buildDomainMap (svc :: rest) init = _
    have hinner : svc.Domains.foldl (fun m2 d => mapUpd m2 (sToLower d) svc) init =
        writeList init (svc.Domains.map (fun d => (sToLower d, svc))) := by
      induction svc.Domains generalizing init with
      | nil => rfl
      | cons d ds ihd => simpa [writeList] using ihd (mapUpd init (sToLower d) svc)
    calc buildDomainMap (svc :: rest) init
        = buildDomainMap rest (svc.Domains.foldl (fun m2 d => mapUpd m2 (sToLower d) svc) init) := rfl
      _ = writeList (writeList init (svc.Domains.map (fun d => (sToLower d, svc))))
            (flattenServices rest) := by rw [hinner, ih]
      _ = writeList init (flattenServices (svc :: rest)) := by
            simp [flattenServices, writeList, List.foldl_append]

/-- Batch override: a key written by `services` reads as whatever building
`services` alone produces; a key it never writes falls through to `init`. -/
theorem buildDomainMap_lookup (services : List AIService) (init : GoMap) (k : Str) :
    mapGet? (buildDomainMap services init) k =
      orTry (mapGet? (buildDomainMap services []) k) (mapGet? init k) := by
  rw [buildDomainMap_eq_writeList, buildDomainMap_eq_writeList]
  exact writeList_lookup_or (flattenServices services) init k

theorem buildDomainMap_mem_isSome (services : List AIService) (init : GoMap)
    (d : Str) (svc : AIService) (hsvc : svc ∈ services) (hd : d ∈ svc.Domains) :
    (mapGet? (buildDomainMap services init) (sToLower d)).isSome := by
  rw [buildDomainMap_eq_writeList]
  apply writeList_mem_isSome
  refine ⟨(sToLower d, svc), ?_, rfl⟩
  simp only [flattenServices, List.mem_flatten]
  exact ⟨svc.Domains.map (fun x => (sToLower x, svc)),
    List.mem_map.mpr ⟨svc, hsvc, rfl⟩, List.mem_map.mpr ⟨d, hd, rfl⟩⟩

theorem firstHit_idxList (m : GoMap) (f : Nat → Str) (svc : AIService) :
    ∀ (len start k : Nat), start ≤ k → k < start + len →
    (∀ i, start ≤ i → i < k → mapGet? m (f i) = none) →
    mapGet? m (f k) = some svc →
    firstHit m ((idxList start len).map f) = some svc := by
  intro len
  induction len with
  | zero => intro start k h1 h2; omega
  | succ n ih =>
    intro start k h1 h2 hbefore hk
    by_cases hsk : start = k
    · subst hsk
      simp [idxList, firstHit, hk]
    · have hlt : start < k := lt_of_le_of_ne h1 hsk
      have hstart : mapGet? m (f start) = none := hbefore start (le_refl start) hlt
      simp only [idxList, List.map_cons, firstHit, hstart]
      exact ih (start + 1) k hlt (by omega) (fun i hi1 hi2 => hbefore i (by omega) hi2) hk

theorem analyze_foldl (m : GoMap) (entries : List LogEntry) :
    ∀ (s : Summary),
    (entries.foldl (analyzeStep m) s).TotalLogsScanned = s.TotalLogsScanned ∧
    (entries.foldl (analyzeStep m) s).TotalFindings = s.TotalFindings ∧
    (entries.foldl (analyzeStep m) s).UniqueUsers = s.UniqueUsers ∧
    (entries.foldl (analyzeStep m) s).UniqueServices = s.UniqueServices ∧
    (entries.foldl (analyzeStep m) s).Findings = s.Findings ++ entries.filterMap (findingOf m) ∧
    (entries.foldl (analyzeStep m) s).ByUser =
      ((entries.filterMap (findingOf m)).map (fun f => f.SourceIP)).foldl mapInc s.ByUser ∧
    (entries.foldl (analyzeStep m) s).ByService =
      ((entries.filterMap (findingOf m)).map (fun f => f.ServiceName)).foldl mapInc s.ByService := by
  induction entries with
  | nil => intro s; simp
  | cons e rest ih =>
    intro s
    rw [List.foldl_cons]
    cases h : matchDomain m e.Domain with
    | none =>
      have hstep : analyzeStep m s e = s := by simp [analyzeStep, h]
      have hfm : findingOf m e = none := by simp [findingOf, h]
      rw [hstep]
      simpa [hfm] using ih s
    | some svc =>
      have hstep : analyzeStep m s e =
          { s with Findings := s.Findings ++ [mkFinding e svc],
                   ByUser := mapInc s.ByUser e.SourceIP,
                   ByService := mapInc s.ByService svc.Name } := by simp [analyzeStep, h]
      have hfm : findingOf m e = some (mkFinding e svc) := by simp [findingOf, h]
      rw [hstep]
      obtain ⟨h1, h2, h3, h4, h5, h6, h7⟩ := ih
        { s with Findings := s.Findings ++ [mkFinding e svc],
                 ByUser := mapInc s.ByUser e.SourceIP,
                 ByService := mapInc s.ByService svc.Name }
      refine ⟨by simpa using h1, by simpa using h2, by simpa using h3, by simpa using h4, ?_, ?_, ?_⟩
      · rw [h5]
        simp [hfm]
      · rw [h6]
        simp [hfm, mkFinding]
      · rw [h7]
        simp [hfm, mkFinding]

theorem length_filterMap_eq_countP {α β : Type} (g : α → Option β) (l : List α) :
    (l.filterMap g).length = l.countP (fun a => (g a).isSome) := by
  induction l with
  | nil => rfl
  | cons a rest ih =>
    rw [List.countP_cons]
    cases h : g a with
    | none => simp [List.filterMap_cons, h, ih]
    | some b => simp [List.filterMap_cons, h, ih]

theorem foldl_mapInc_nil_length (l : List Str) :
    (l.foldl mapInc []).length = l.toFinset.card := by
  obtain ⟨hnodup, hmem⟩ := foldl_mapInc_keys l []
  rcases hnodup with hn | hbad
  · have hmem' : ∀ x, x ∈ (l.foldl mapInc []).map Prod.fst ↔ x ∈ l := by
      intro x
      rw [hmem x]
      simp
    have hfin : ((l.foldl mapInc []).map Prod.fst).toFinset = l.toFinset := by
      ext x
      simp only [List.mem_toFinset]
      exact hmem' x
    calc (l.foldl mapInc []).length
        = ((l.foldl mapInc []).map Prod.fst).length := by simp
      _ = ((l.foldl mapInc []).map Prod.fst).toFinset.card :=
          (List.toFinset_card_of_nodup hn).symm
      _ = l.toFinset.card := by rw [hfin]
  · exact absurd (by simp) hbad

theorem matchDomain_exact (m : GoMap) (s : Str) (svc : AIService)
    (h : mapGet? m (sToLower s) = some svc) : matchDomain m s = some svc := by
  simp [matchDomain, h]

theorem matchDomain_miss (m : GoMap) (s : Str) (h : mapGet? m (sToLower s) = none) :
    matchDomain m s =
      firstHit m ((idxList 1 ((splitDot (sToLower s)).length - 1 - 1)).map
        (fun i => joinDot ((splitDot (sToLower s)).drop i))) := by
  simp [matchDomain, h]

theorem foldl_mapInc_nil_keys_nodup (l : List Str) :
    ((l.foldl mapInc []).map Prod.fst).Nodup := by
  obtain ⟨hnodup, _⟩ := foldl_mapInc_keys l []
  rcases hnodup with hn | hbad
  · exact hn
  · exact absurd (by simp) hbad

/-- C1: `matchDomain` lower-cases its input and evaluates exactly the
following candidate sequence against the index, returning the first hit and
not-found otherwise: the full lower-cased string (the exact lookup), then
the suffixes obtained by dropping leading labels, from label index 1 up to
the second-to-last label — never the bare final label, never the full
string a second time.  Consequently any domain listed verbatim in the
catalog is matched (via the exact lookup) to the service owning its
key. -/
theorem C1_match_algorithm :
    (∀ (m : GoMap) (s : Str),
       matchDomain m s =
         firstHit m ((0 :: idxList 1 ((splitDot (sToLower s)).length - 1 - 1)).map
           (fun i => joinDot ((splitDot (sToLower s)).drop i)))) ∧
    (∀ (services : List AIService) (d : Str) (svc : AIService),
       svc ∈ services → d ∈ svc.Domains →
       ∃ owner : AIService,
         mapGet? (New services) (sToLower d) = some owner ∧
         matchDomain (New services) d = some owner) := by
  constructor
  · intro m s
    cases h : mapGet? m (sToLower s) with
    | some svc => simp [matchDomain, firstHit, joinDot_split, h]
    | none => simp [matchDomain, firstHit, joinDot_split, h]
  · intro services d svc hsvc hd
    have hsome := buildDomainMap_mem_isSome services [] d svc hsvc hd
    obtain ⟨owner, howner⟩ := Option.isSome_iff_exists.mp hsome
    exact ⟨owner, howner, by simp [matchDomain, New, howner]⟩

/-- Witness for C1 at a concrete catalog: the mixed-case catalog domain
`API.openai.com` is matched to its owner by `matchDomain`. -/
theorem C1_match_algorithm_witness :
    ∃ owner : AIService,
      mapGet? (New [⟨("OpenAI").toList, ("LLM").toList,
          [("openai.com").toList, ("API.openai.com").toList]⟩])
        (sToLower (("API.openai.com").toList)) = some owner ∧
      matchDomain (New [⟨("OpenAI").toList, ("LLM").toList,
          [("openai.com").toList, ("API.openai.com").toList]⟩])
        (("API.openai.com").toList) = some owner :=
  C1_match_algorithm.2 _ _
    ⟨("OpenAI").toList, ("LLM").toList, [("openai.com").toList, ("API.openai.com").toList]⟩
    (by decide) (by decide)

/-- C2 fails on the code: for the single-label catalog domain `b`,
prepending a label gives `x.b`, whose suffix loop is empty (the bare final
label is excluded), so `Match("x.b")` reports not-found while `Match("b")`
succeeds. -/
theorem C2_counterexample :
    mapGet? (New [⟨("S1").toList, ("c").toList, [("b").toList]⟩]) (("b").toList) =
      some ⟨("S1").toList, ("c").toList, [("b").toList]⟩ ∧
    matchDomain (New [⟨("S1").toList, ("c").toList, [("b").toList]⟩]) (("b").toList) =
      some ⟨("S1").toList, ("c").toList, [("b").toList]⟩ ∧
    matchDomain (New [⟨("S1").toList, ("c").toList, [("b").toList]⟩]) (("x.b").toList) =
      none := by
  refine ⟨by decide, by decide, by decide⟩

/-- C2 (amended): subdomain inheritance holds for a catalog key `cd` of at
least two labels, for any prepended labels, provided the new domain is
lower-case and none of its strictly longer suffixes (including the whole
string) is itself a key of the index. -/
theorem C2_subdomain_inheritance (m : GoMap) (cd : Str) (svc : AIService) (ps : List Str)
    (hkey : mapGet? m cd = some svc)
    (hlowcd : sToLower cd = cd)
    (hcd2 : 2 ≤ (splitDot cd).length)
    (hps : ps ≠ [])
    (hpsdot : ∀ l ∈ ps, '.' ∉ l)
    (hlowd : sToLower (joinDot (ps ++ splitDot cd)) = joinDot (ps ++ splitDot cd))
    (hnone : ∀ i < ps.length, mapGet? m (joinDot ((ps ++ splitDot cd).drop i)) = none) :
    matchDomain m (joinDot (ps ++ splitDot cd)) = some svc ∧
    matchDomain m cd = some svc := by
  have hpos : 0 < ps.length := List.length_pos.mpr hps
  have hexact0 : mapGet? m (joinDot (ps ++ splitDot cd)) = none := by
    have := hnone 0 hpos
    simpa using this
  have hsplit : splitDot (joinDot (ps ++ splitDot cd)) = ps ++ splitDot cd := by
    apply splitDot_join
    · intro l hl
      rcases List.mem_append.mp hl with h1 | h2
      · exact hpsdot l h1
      · exact splitDot_no_dot cd l h2
    · intro hcontra
      exact hps (List.append_eq_nil.mp hcontra).1
  constructor
  · rw [matchDomain_miss m _ (by rw [hlowd]; exact hexact0)]
    rw [hlowd, hsplit]
    apply firstHit_idxList m _ svc ((ps ++ splitDot cd).length - 1 - 1) 1 ps.length
    · exact hpos
    · have := List.length_append ps (splitDot cd)
      omega
    · intro i hi1 hi2
      exact hnone i hi2
    · have hdrop : (ps ++ splitDot cd).drop ps.length = splitDot cd := List.drop_left ps _
      rw [hdrop, joinDot_split, hkey]
  · exact matchDomain_exact m cd svc (by rw [hlowcd]; exact hkey)

/-- Witness for the amended C2: `api.openai.com` inherits the catalog entry
of `openai.com`. -/
theorem C2_subdomain_inheritance_witness :
    matchDomain (New [⟨("OpenAI").toList, ("LLM").toList, [("openai.com").toList]⟩])
      (joinDot ([("api").toList] ++ splitDot (("openai.com").toList))) =
      some ⟨("OpenAI").toList, ("LLM").toList, [("openai.com").toList]⟩ ∧
    matchDomain (New [⟨("OpenAI").toList, ("LLM").toList, [("openai.com").toList]⟩])
      (("openai.com").toList) =
      some ⟨("OpenAI").toList, ("LLM").toList, [("openai.com").toList]⟩ :=
  C2_subdomain_inheritance _ _ _ _
    (by decide) (by decide) (by decide) (by decide) (by decide) (by decide)
    (by decide)

/-- C3: over any entry list, `Analyze` scans them in one ordered pass:
`TotalLogsScanned` is the input length, `TotalFindings` counts exactly the
entries whose domain matches, `Findings` lists the matched entries'
findings in input order, and `UniqueUsers` / `UniqueServices` are the
numbers of distinct source IPs / matched service names among those
findings. -/
theorem C3_analyze_counts (m : GoMap) (entries : List LogEntry) :
    (Analyze m entries).TotalLogsScanned = entries.length ∧
    (Analyze m entries).TotalFindings =
      entries.countP (fun e => (matchDomain m e.Domain).isSome) ∧
    (Analyze m entries).Findings = entries.filterMap (findingOf m) ∧
    (Analyze m entries).UniqueUsers =
      ((entries.filterMap (findingOf m)).map (fun f => f.SourceIP)).toFinset.card ∧
    (Analyze m entries).UniqueServices =
      ((entries.filterMap (findingOf m)).map (fun f => f.ServiceName)).toFinset.card := by
  obtain ⟨h1, _h2, _h3, _h4, h5, h6, h7⟩ :=
    analyze_foldl m entries ⟨entries.length, 0, 0, 0, [], [], []⟩
  have hcount : (entries.filterMap (findingOf m)).length =
      entries.countP (fun e => (matchDomain m e.Domain).isSome) := by
    rw [length_filterMap_eq_countP]
    apply List.countP_congr
    intro e _
    simp [findingOf]
  refine ⟨?_, ?_, ?_, ?_, ?_⟩
  · show (entries.foldl (analyzeStep m) _).TotalLogsScanned = entries.length
    rw [h1]
  · show (entries.foldl (analyzeStep m) _).Findings.length = _
    rw [h5]
    simpa using hcount
  · show (entries.foldl (analyzeStep m) _).Findings = _
    rw [h5]
    simp
  · show (entries.foldl (analyzeStep m) _).ByUser.length = _
    rw [h6]
    simpa using foldl_mapInc_nil_length
      ((entries.filterMap (findingOf m)).map (fun f => f.SourceIP))
  · show (entries.foldl (analyzeStep m) _).ByService.length = _
    rw [h7]
    simpa using foldl_mapInc_nil_length
      ((entries.filterMap (findingOf m)).map (fun f => f.ServiceName))

/-- C10: the `Summary` returned by `Analyze` is internally consistent:
`TotalFindings` is the length of `Findings`, both hit-count maps sum to
`TotalFindings`, the unique counts are the numbers of distinct keys of the
maps, and `TotalFindings` never exceeds `TotalLogsScanned`. -/
theorem C10_summary_consistent (m : GoMap) (entries : List LogEntry) :
    (Analyze m entries).TotalFindings = (Analyze m entries).Findings.length ∧
    ((Analyze m entries).ByUser.map Prod.snd).sum = (Analyze m entries).TotalFindings ∧
    ((Analyze m entries).ByService.map Prod.snd).sum = (Analyze m entries).TotalFindings ∧
    (Analyze m entries).UniqueUsers =
      ((Analyze m entries).ByUser.map Prod.fst).toFinset.card ∧
    (Analyze m entries).UniqueServices =
      ((Analyze m entries).ByService.map Prod.fst).toFinset.card ∧
    (Analyze m entries).TotalFindings ≤ (Analyze m entries).TotalLogsScanned := by
  obtain ⟨h1, _h2, _h3, _h4, h5, h6, h7⟩ :=
    analyze_foldl m entries ⟨entries.length, 0, 0, 0, [], [], []⟩
  have husr := foldl_mapInc_nil_keys_nodup
    ((entries.filterMap (findingOf m)).map (fun f => f.SourceIP))
  have hsvc := foldl_mapInc_nil_keys_nodup
    ((entries.filterMap (findingOf m)).map (fun f => f.ServiceName))
  refine ⟨rfl, ?_, ?_, ?_, ?_, ?_⟩
  · show ((entries.foldl (analyzeStep m) _).ByUser.map Prod.snd).sum =
        (entries.foldl (analyzeStep m) _).Findings.length
    rw [h5, h6]
    have := foldl_mapInc_sum
      ((entries.filterMap (findingOf m)).map (fun f => f.SourceIP)) []
    simpa using this
  · show ((entries.foldl (analyzeStep m) _).ByService.map Prod.snd).sum =
        (entries.foldl (analyzeStep m) _).Findings.length
    rw [h5, h7]
    have := foldl_mapInc_sum
      ((entries.filterMap (findingOf m)).map (fun f => f.ServiceName)) []
    simpa using this
  · show (entries.foldl (analyzeStep m) _).ByUser.length = _
    have hlen : ∀ (l : List (Str × Nat)), l.length = (l.map Prod.fst).length := by
      intro l; simp
    rw [hlen]
    exact (List.toFinset_card_of_nodup (h6 ▸ husr)).symm
  · show (entries.foldl (analyzeStep m) _).ByService.length = _
    have hlen : ∀ (l : List (Str × Nat)), l.length = (l.map Prod.fst).length := by
      intro l; simp
    rw [hlen]
    exact (List.toFinset_card_of_nodup (h7 ▸ hsvc)).symm
  · show (entries.foldl (analyzeStep m) _).Findings.length ≤
        (entries.foldl (analyzeStep m) _).TotalLogsScanned
    rw [h1, h5]
    simpa using List.length_filterMap_le (findingOf m) entries

/-- C4: merging a custom catalog overwrites the domain index key-by-key:
after the merge every key reads as the custom catalog's own final binding
when the custom catalog writes it, falling back to the base binding
otherwise; consequently `matchDomain` on a collided (lower-cased) domain
returns the custom entry. -/
theorem C4_custom_overrides (base custom : List AIService) :
    (∀ k : Str,
       mapGet? (LoadCustomDomains (New base) custom) k =
         orTry (mapGet? (New custom) k) (mapGet? (New base) k)) ∧
    (∀ (d : Str) (svc : AIService),
       mapGet? (New custom) (sToLower d) = some svc →
       matchDomain (LoadCustomDomains (New base) custom) d = some svc) := by
  have hlook : ∀ k : Str,
      mapGet? (LoadCustomDomains (New base) custom) k =
        orTry (mapGet? (New custom) k) (mapGet? (New base) k) := by
    intro k
    exact buildDomainMap_lookup custom (New base) k
  refine ⟨hlook, ?_⟩
  intro d svc hsvc
  have hmerged : mapGet? (LoadCustomDomains (New base) custom) (sToLower d) = some svc := by
    rw [hlook (sToLower d), hsvc]
    rfl
  simp [matchDomain, hmerged]

/-- Witness for C4: the custom entry for `X.AI` overrides the base entry
for `x.ai`, and a subsequent match on `x.ai` returns the custom service. -/
theorem C4_custom_overrides_witness :
    matchDomain
      (LoadCustomDomains (New [⟨("Base").toList, ("c1").toList, [("x.ai").toList]⟩])
        [⟨("Custom").toList, ("c2").toList, [("X.AI").toList]⟩])
      (("x.ai").toList) =
      some ⟨("Custom").toList, ("c2").toList, [("X.AI").toList]⟩ :=
  (C4_custom_overrides [⟨("Base").toList, ("c1").toList, [("x.ai").toList]⟩]
      [⟨("Custom").toList, ("c2").toList, [("X.AI").toList]⟩]).2
    (("x.ai").toList) _ (by decide)

theorem extractDomain_lower (s : Str) : sToLower (extractDomain s) = extractDomain s := by
  unfold extractDomain
  split
  · exact sToLower_idem _
  · exact sToLower_idem _

theorem parseSquidLine_domain (l : Str) (e : LogEntry) (h : parseSquidLine l = some e) :
    ∃ raw, e.Domain = extractDomain raw := by
  unfold parseSquidLine at h
  repeat' first
    | exact Option.noConfusion h
    | split at h
  all_goals injection h with h2
  all_goals subst h2
  all_goals exact ⟨_, rfl⟩

theorem parseSimpleDNS_domain (l : Str) (e : LogEntry) (h : parseSimpleDNS l = some e) :
    ∃ raw, e.Domain = sToLower raw := by
  unfold parseSimpleDNS at h
  repeat' first
    | exact Option.noConfusion h
    | split at h
  all_goals injection h with h2
  all_goals subst h2
  all_goals exact ⟨_, rfl⟩

theorem parseDnsmasq_domain (ny : Nat) (l : Str) (e : LogEntry)
    (h : parseDnsmasq ny l = some e) : ∃ raw, e.Domain = sToLower raw := by
  unfold parseDnsmasq at h
  repeat' first
    | exact Option.noConfusion h
    | split at h
  all_goals injection h with h2
  all_goals subst h2
  all_goals exact ⟨_, rfl⟩

theorem parseDnsmasq_ts (ny : Nat) (l : Str) (e : LogEntry)
    (h : parseDnsmasq ny l = some e) : e.Timestamp = dnsmasqTs ny l := by
  unfold parseDnsmasq at h
  repeat' first
    | exact Option.noConfusion h
    | split at h
  all_goals injection h with h2
  all_goals subst h2
  all_goals rfl

theorem mkCivil_some (y : Int) (mo d h mi se : Nat) (t : GoTime)
    (heq : mkCivil y mo d h mi se = some t) : t = ⟨y, mo, d, h, mi, se⟩ := by
  unfold mkCivil at heq
  split at heq
  · injection heq with h2
    exact h2.symm
  · exact Option.noConfusion heq

theorem mdtParse_year (s : Str) (t : GoTime) (h : mdtParse s = some t) : t.year = 0 := by
  unfold mdtParse at h
  repeat' first
    | exact Option.noConfusion h
    | split at h
  all_goals rw [mkCivil_some _ _ _ _ _ _ _ h]

theorem squidProcessLines_eq_filterMap (lines : List Str) :
    squidProcessLines lines =
      lines.filterMap (fun l => if skipLine l then none else parseSquidLine l) := by
  induction lines with
  | nil => rfl
  | cons l rest ih =>
    unfold squidProcessLines
    by_cases hs : skipLine l
    · simp [hs, List.filterMap_cons, ih]
    · cases hp : parseSquidLine l <;> simp [hs, hp, List.filterMap_cons, ih]

theorem dnsProcessLines_eq_filterMap (ny : Nat) (lines : List Str) :
    dnsProcessLines ny lines =
      lines.filterMap (fun l => if skipLine l then none else dnsLineEntry ny l) := by
  induction lines with
  | nil => rfl
  | cons l rest ih =>
    unfold dnsProcessLines
    by_cases hs : skipLine l
    · simp [hs, List.filterMap_cons, ih]
    · cases hp : dnsLineEntry ny l <;> simp [hs, hp, List.filterMap_cons, ih]

theorem csvRows_eq_filterMap (a b c d5 e5 : Option Nat) (rows : List (List Str)) :
    csvRows a b c d5 e5 rows =
      rows.filterMap (fun row =>
        if (csvRowEntry a b c d5 e5 row).Domain = [] then none
        else some (csvRowEntry a b c d5 e5 row)) := by
  induction rows with
  | nil => rfl
  | cons row rest ih =>
    unfold csvRows
    by_cases hd : (csvRowEntry a b c d5 e5 row).Domain = [] <;>
      simp [hd, List.filterMap_cons, ih]

theorem csvRows_domain_ne_nil (a b c d5 e5 : Option Nat) (rows : List (List Str))
    (e : LogEntry) (h : e ∈ csvRows a b c d5 e5 rows) : e.Domain ≠ [] := by
  rw [csvRows_eq_filterMap] at h
  obtain ⟨row, _hrow, hrun⟩ := List.mem_filterMap.mp h
  by_cases hd : (csvRowEntry a b c d5 e5 row).Domain = []
  · simp [hd] at hrun
  · simp only [if_neg hd, Option.some.injEq] at hrun
    rw [← hrun]
    exact hd

theorem csvRowEntry_Domain (a b c d5 e5 : Option Nat) (row : List Str) :
    (csvRowEntry a b c d5 e5 row).Domain =
      (match getCell row c with
       | some cell =>
         if hasSub (trimSpace cell) (("://").toList) then extractDomain (trimSpace cell)
         else sToLower (trimSpace cell)
       | none => []) := rfl

theorem csvRowEntry_domain_lower (a b c d5 e5 : Option Nat) (row : List Str) :
    sToLower (csvRowEntry a b c d5 e5 row).Domain = (csvRowEntry a b c d5 e5 row).Domain := by
  rw [csvRowEntry_Domain]
  cases hc : getCell row c with
  | none => rfl
  | some cell =>
    show sToLower (if hasSub (trimSpace cell) (("://").toList) = true
        then extractDomain (trimSpace cell) else sToLower (trimSpace cell)) =
      (if hasSub (trimSpace cell) (("://").toList) = true
        then extractDomain (trimSpace cell) else sToLower (trimSpace cell))
    by_cases hs : hasSub (trimSpace cell) (("://").toList) = true
    · rw [if_pos hs]
      exact extractDomain_lower _
    · rw [if_neg hs]
      exact sToLower_idem _

theorem csvParseRecords_short (records : List (List Str)) (h : records.length < 2) :
    csvParseRecords records = Except.error CSVError.noDataRows := by
  unfold csvParseRecords
  rw [if_pos h]

theorem csvParseRecords_noDst (hdr : List Str) (rest : List (List Str))
    (h2 : ¬(hdr :: rest).length < 2)
    (hdc : findCol (mapColumns hdr) dstNames = none) :
    csvParseRecords (hdr :: rest) = Except.error CSVError.missingDestCol := by
  unfold csvParseRecords
  rw [if_neg h2]
  simp only [hdc]

theorem csvParseRecords_ok (hdr : List Str) (rest : List (List Str)) (dc : Nat)
    (h2 : ¬(hdr :: rest).length < 2)
    (hdc : findCol (mapColumns hdr) dstNames = some dc) :
    csvParseRecords (hdr :: rest) =
      Except.ok (csvRows (findCol (mapColumns hdr) tsNames)
        (findCol (mapColumns hdr) srcNames) (some dc)
        (findCol (mapColumns hdr) bytesNames)
        (findCol (mapColumns hdr) actionNames) rest) := by
  unfold csvParseRecords
  rw [if_neg h2]
  simp only [hdc]

theorem csvParseRecords_ok_inv (records : List (List Str)) (es : List LogEntry)
    (h : csvParseRecords records = Except.ok es) :
    ∃ hdr rest dc, records = hdr :: rest ∧ 2 ≤ records.length ∧
      findCol (mapColumns hdr) dstNames = some dc ∧
      es = csvRows (findCol (mapColumns hdr) tsNames)
        (findCol (mapColumns hdr) srcNames) (some dc)
        (findCol (mapColumns hdr) bytesNames)
        (findCol (mapColumns hdr) actionNames) rest := by
  unfold csvParseRecords at h
  by_cases hlen : records.length < 2
  · rw [if_pos hlen] at h
    exact Except.noConfusion h
  · rw [if_neg hlen] at h
    cases records with
    | nil => exact Except.noConfusion h
    | cons hdr rest =>
      cases hdc : findCol (mapColumns hdr) dstNames with
      | none =>
        simp only [hdc] at h
        exact Except.noConfusion h
      | some dc =>
        simp only [hdc] at h
        injection h with h2
        refine ⟨hdr, rest, dc, rfl, ?_, hdc, h2.symm⟩
        simpa using hlen

/-- C5 fails on the code: a perfectly readable CSV file consisting of a
single header row makes `CSVParser.Parse` return a file-level error
(`noDataRows`), so Parse can fail for content reasons, not only when the
file cannot be opened or read. -/
theorem C5_counterexample :
    CSVParser.Parse (Except.ok [[("destination").toList]]) =
      Except.error CSVError.noDataRows := rfl

/-- C5 (amended): for the Squid and DNS parsers, `Parse` on readable content
never returns an error and yields exactly the successfully parsed lines
(malformed lines are silently skipped); `CSVParser.Parse` can additionally
fail at file level when the file has fewer than two rows or no
destination-like column, but once those checks pass it never errors on
malformed data rows. -/
theorem C5_parse_error_policy (lines : List Str) (nowYear : Nat)
    (records : List (List Str)) :
    SquidParser.Parse (Except.ok lines) =
      Except.ok (lines.filterMap (fun l => if skipLine l then none else parseSquidLine l)) ∧
    (∀ e1 : IOError, SquidParser.Parse (Except.ok lines) ≠ Except.error e1) ∧
    DNSParser.Parse nowYear (Except.ok lines) =
      Except.ok (lines.filterMap (fun l => if skipLine l then none else dnsLineEntry nowYear l)) ∧
    (∀ e2 : IOError, DNSParser.Parse nowYear (Except.ok lines) ≠ Except.error e2) ∧
    (2 ≤ records.length → dstColFound records = true →
      ∀ e3 : CSVError, CSVParser.Parse (Except.ok records) ≠ Except.error e3) := by
  refine ⟨?_, ?_, ?_, ?_, ?_⟩
  · show Except.ok (squidProcessLines lines) = _
    rw [squidProcessLines_eq_filterMap]
  · intro e1
    show Except.ok (squidProcessLines lines) ≠ _
    exact fun hcontra => Except.noConfusion hcontra
  · show Except.ok (dnsProcessLines nowYear lines) = _
    rw [dnsProcessLines_eq_filterMap]
  · intro e2
    show Except.ok (dnsProcessLines nowYear lines) ≠ _
    exact fun hcontra => Except.noConfusion hcontra
  · intro hlen hdst e3
    cases records with
    | nil => simp at hlen
    | cons hdr rest =>
      cases hdc : findCol (mapColumns hdr) dstNames with
      | none => simp [dstColFound, hdc] at hdst
      | some dc =>
        show csvParseRecords (hdr :: rest) ≠ _
        rw [csvParseRecords_ok hdr rest dc (by simpa using hlen) hdc]
        exact fun hcontra => Except.noConfusion hcontra

/-- Witness for the amended C5: a two-row CSV with a destination column
parses without error. -/
theorem C5_parse_error_policy_witness :
    CSVParser.Parse (Except.ok [[("destination").toList], [("a.com").toList]]) ≠
      Except.error CSVError.noDataRows :=
  (C5_parse_error_policy [] 0 [[("destination").toList], [("a.com").toList]]).2.2.2.2
    (by decide) (by decide) CSVError.noDataRows

/-- C6: `CSVParser.Parse` on readable content fails at file level exactly
when the file has fewer than two rows (`noDataRows`) or, given at least two
rows, when no destination-like column exists (`missingDestCol`); these are
its only content errors.  On success every returned entry has a non-empty
domain and the result is exactly the data rows whose computed domain is
non-empty, in order. -/
theorem C6_csv_file_errors (records : List (List Str)) :
    (CSVParser.Parse (Except.ok records) = Except.error CSVError.noDataRows ↔
      records.length < 2) ∧
    (∀ hdr rest, records = hdr :: rest → 2 ≤ records.length →
      (CSVParser.Parse (Except.ok records) = Except.error CSVError.missingDestCol ↔
        findCol (mapColumns hdr) dstNames = none)) ∧
    (∀ err, CSVParser.Parse (Except.ok records) = Except.error err →
      err = CSVError.noDataRows ∨ err = CSVError.missingDestCol) ∧
    (∀ es, CSVParser.Parse (Except.ok records) = Except.ok es →
      (∀ e ∈ es, e.Domain ≠ []) ∧
      ∃ hdr rest, records = hdr :: rest ∧
        es = rest.filterMap (fun row =>
          if (csvRowEntry (findCol (mapColumns hdr) tsNames)
              (findCol (mapColumns hdr) srcNames) (findCol (mapColumns hdr) dstNames)
              (findCol (mapColumns hdr) bytesNames)
              (findCol (mapColumns hdr) actionNames) row).Domain = [] then none
          else some (csvRowEntry (findCol (mapColumns hdr) tsNames)
              (findCol (mapColumns hdr) srcNames) (findCol (mapColumns hdr) dstNames)
              (findCol (mapColumns hdr) bytesNames)
              (findCol (mapColumns hdr) actionNames) row))) := by
  refine ⟨?_, ?_, ?_, ?_⟩
  · constructor
    · intro h
      by_cases hlen : records.length < 2
      · exact hlen
      · exfalso
        cases records with
        | nil => simp at hlen
        | cons hdr rest =>
          cases hdc : findCol (mapColumns hdr) dstNames with
          | none =>
            rw [show CSVParser.Parse (Except.ok (hdr :: rest)) =
                csvParseRecords (hdr :: rest) from rfl,
              csvParseRecords_noDst hdr rest hlen hdc] at h
            simp at h
          | some dc =>
            rw [show CSVParser.Parse (Except.ok (hdr :: rest)) =
                csvParseRecords (hdr :: rest) from rfl,
              csvParseRecords_ok hdr rest dc hlen hdc] at h
            exact Except.noConfusion h
    · intro hlen
      exact csvParseRecords_short records hlen
  · intro hdr rest heq hlen
    subst heq
    have hlen2 : ¬(hdr :: rest).length < 2 := by omega
    constructor
    · intro h
      cases hdc : findCol (mapColumns hdr) dstNames with
      | none => rfl
      | some dc =>
        rw [show CSVParser.Parse (Except.ok (hdr :: rest)) =
            csvParseRecords (hdr :: rest) from rfl,
          csvParseRecords_ok hdr rest dc hlen2 hdc] at h
        exact Except.noConfusion h
    · intro hdc
      exact csvParseRecords_noDst hdr rest hlen2 hdc
  · intro err h
    by_cases hlen : records.length < 2
    · left
      rw [show CSVParser.Parse (Except.ok records) = csvParseRecords records from rfl,
        csvParseRecords_short records hlen] at h
      injection h with h2
      exact h2.symm
    · cases records with
      | nil => simp at hlen
      | cons hdr rest =>
        cases hdc : findCol (mapColumns hdr) dstNames with
        | none =>
          right
          rw [show CSVParser.Parse (Except.ok (hdr :: rest)) =
              csvParseRecords (hdr :: rest) from rfl,
            csvParseRecords_noDst hdr rest hlen hdc] at h
          injection h with h2
          exact h2.symm
        | some dc =>
          rw [show CSVParser.Parse (Except.ok (hdr :: rest)) =
              csvParseRecords (hdr :: rest) from rfl,
            csvParseRecords_ok hdr rest dc hlen hdc] at h
          exact Except.noConfusion h
  · intro es h
    obtain ⟨hdr, rest, dc, heq, _hlen, hdc, hes⟩ :=
      csvParseRecords_ok_inv records es h
    subst heq
    constructor
    · intro e he
      rw [hes] at he
      exact csvRows_domain_ne_nil _ _ _ _ _ rest e he
    · refine ⟨hdr, rest, rfl, ?_⟩
      rw [hes, csvRows_eq_filterMap, hdc]

/-- Witness for C6 at a concrete file: a header plus one data row parses,
and the `noDataRows` error is equivalent to having fewer than two rows. -/
theorem C6_csv_file_errors_witness :
    ¬(CSVParser.Parse (Except.ok [[("destination").toList], [("a.com").toList]]) =
        Except.error CSVError.noDataRows) :=
  fun h => by
    have := (C6_csv_file_errors [[("destination").toList], [("a.com").toList]]).1.mp h
    simp at this

/-- C7 fails on the code: a CSV destination cell with a trailing root-label
dot reaches the matcher unchanged — the produced entry's domain still ends
in `.` (only the DNS parser strips a trailing dot). -/
theorem C7_counterexample :
    CSVParser.Parse (Except.ok [[("destination").toList], [("api.openai.com.").toList]]) =
      Except.ok [⟨GoTime.zero, [], ("api.openai.com.").toList, [], [], [], 0,
        ("api.openai.com.").toList⟩] ∧
    (("api.openai.com.").toList).getLast? = some '.' := ⟨rfl, rfl⟩

/-- C7 (amended): for every `LogEntry` produced by any of the three
parsers, the destination `Domain` field is lower-cased (a fixed point of
`sToLower`) before it reaches the matcher. -/
theorem C7_domains_lowercased (lines : List Str) (nowYear : Nat)
    (records : List (List Str)) :
    (∀ es e, SquidParser.Parse (Except.ok lines) = Except.ok es → e ∈ es →
      sToLower e.Domain = e.Domain) ∧
    (∀ es e, DNSParser.Parse nowYear (Except.ok lines) = Except.ok es → e ∈ es →
      sToLower e.Domain = e.Domain) ∧
    (∀ es e, CSVParser.Parse (Except.ok records) = Except.ok es → e ∈ es →
      sToLower e.Domain = e.Domain) := by
  refine ⟨?_, ?_, ?_⟩
  · intro es e hok he
    injection hok with h2
    rw [← h2] at he
    rw [squidProcessLines_eq_filterMap] at he
    obtain ⟨l, _hl, hrun⟩ := List.mem_filterMap.mp he
    by_cases hs : skipLine l
    · simp [hs] at hrun
    · rw [if_neg hs] at hrun
      obtain ⟨raw, hraw⟩ := parseSquidLine_domain l e hrun
      rw [hraw, extractDomain_lower]
  · intro es e hok he
    injection hok with h2
    rw [← h2] at he
    rw [dnsProcessLines_eq_filterMap] at he
    obtain ⟨l, _hl, hrun⟩ := List.mem_filterMap.mp he
    by_cases hs : skipLine l
    · simp [hs] at hrun
    · rw [if_neg hs] at hrun
      unfold dnsLineEntry at hrun
      cases hsimple : parseSimpleDNS l with
      | some e1 =>
        rw [hsimple] at hrun
        injection hrun with h3
        subst h3
        obtain ⟨raw, hraw⟩ := parseSimpleDNS_domain l e1 hsimple
        rw [hraw, sToLower_idem]
      | none =>
        rw [hsimple] at hrun
        obtain ⟨raw, hraw⟩ := parseDnsmasq_domain nowYear l e hrun
        rw [hraw, sToLower_idem]
  · intro es e hok he
    obtain ⟨hdr, rest, dc, heq, _hlen, hdc, hes⟩ :=
      csvParseRecords_ok_inv records es hok
    rw [hes, csvRows_eq_filterMap] at he
    obtain ⟨row, _hrow, hrun⟩ := List.mem_filterMap.mp he
    by_cases hd : (csvRowEntry (findCol (mapColumns hdr) tsNames)
        (findCol (mapColumns hdr) srcNames) (some dc)
        (findCol (mapColumns hdr) bytesNames)
        (findCol (mapColumns hdr) actionNames) row).Domain = []
    · simp [hd] at hrun
    · rw [if_neg hd] at hrun
      injection hrun with h3
      rw [← h3]
      exact csvRowEntry_domain_lower _ _ _ _ _ row

/-- Witness for the amended C7: the domain of the entry parsed from a
mixed-case CSV destination cell is a fixed point of `sToLower`. -/
theorem C7_domains_lowercased_witness :
    sToLower (⟨GoTime.zero, [], ("api.openai.com").toList, [], [], [], 0,
        ("API.OpenAI.com").toList⟩ : LogEntry).Domain =
      (⟨GoTime.zero, [], ("api.openai.com").toList, [], [], [], 0,
        ("API.OpenAI.com").toList⟩ : LogEntry).Domain :=
  (C7_domains_lowercased [] 0 [[("destination").toList], [("API.OpenAI.com").toList]]).2.2
    [⟨GoTime.zero, [], ("api.openai.com").toList, [], [], [], 0,
      ("API.OpenAI.com").toList⟩]
    ⟨GoTime.zero, [], ("api.openai.com").toList, [], [], [], 0,
      ("API.OpenAI.com").toList⟩
    rfl (by decide)

/-- C8 fails on the code: a Squid line whose request target is a bare
`:443` parses successfully and yields an entry with an empty domain, which
is returned to the caller — only the CSV parser filters empty domains. -/
theorem C8_counterexample :
    SquidParser.Parse (Except.ok
        [("1718000000.000 200 192.168.1.50 TCP_MISS/200 1500 GET :443 - DIRECT/x text/html").toList]) =
      Except.ok (squidProcessLines
        [("1718000000.000 200 192.168.1.50 TCP_MISS/200 1500 GET :443 - DIRECT/x text/html").toList]) ∧
    (squidProcessLines
        [("1718000000.000 200 192.168.1.50 TCP_MISS/200 1500 GET :443 - DIRECT/x text/html").toList]).map
      (fun e => e.Domain) = [[]] := ⟨rfl, by decide⟩

/-- C8 (amended): the CSV parser drops rows without a resolvable
destination before returning: no `LogEntry` in a successful
`CSVParser.Parse` result has an empty `Domain`.  (The Squid and DNS parsers
perform no such filtering.) -/
theorem C8_csv_drops_empty_domains (records : List (List Str)) (es : List LogEntry)
    (h : CSVParser.Parse (Except.ok records) = Except.ok es) :
    ∀ e ∈ es, e.Domain ≠ [] := by
  obtain ⟨hdr, rest, dc, heq, _hlen, hdc, hes⟩ := csvParseRecords_ok_inv records es h
  intro e he
  rw [hes] at he
  exact csvRows_domain_ne_nil _ _ _ _ _ rest e he

/-- Witness for the amended C8 at a concrete file. -/
theorem C8_csv_drops_empty_domains_witness :
    (⟨GoTime.zero, [], ("a.com").toList, [], [], [], 0, ("a.com").toList⟩ : LogEntry).Domain ≠
      [] :=
  C8_csv_drops_empty_domains [[("destination").toList], [("a.com").toList]]
    [⟨GoTime.zero, [], ("a.com").toList, [], [], [], 0, ("a.com").toList⟩] rfl
    ⟨GoTime.zero, [], ("a.com").toList, [], [], [], 0, ("a.com").toList⟩ (by decide)

theorem addYears_year (t : GoTime) (y : Nat) : (addYears t y).year = t.year + (y : Int) := by
  unfold addYears
  split <;> rfl

/-- C9 fails on the code at one edge: for the dnsmasq line dated `Feb 29`,
the year-less parse succeeds (year 0 is a leap year) but `AddDate` into the
non-leap current year 2025 normalizes the date to March 1 — the produced
timestamp does not carry the parsed month and day. -/
theorem C9_counterexample :
    mdtParse (dnsmasqTsPart
        (("Feb 29 12:00:00 dnsmasq[1]: query[A] x.com from 1.2.3.4").toList)) =
      some ⟨0, 2, 29, 12, 0, 0⟩ ∧
    (parseDnsmasq 2025
        (("Feb 29 12:00:00 dnsmasq[1]: query[A] x.com from 1.2.3.4").toList)).map
      (fun e => e.Timestamp) = some ⟨2025, 3, 1, 12, 0, 0⟩ := ⟨rfl, rfl⟩

/-- C9 (amended): for every dnsmasq line accepted by `parseDnsmasq`, when
the extracted month-day-time text parses, the entry's timestamp is
`AddDate(nowYear, 0, 0)` of the year-0 parse: it carries the current
wall-clock year together with the parsed month, day and time-of-day —
except that a parsed February 29 combined with a non-leap current year
normalizes to March 1; when the text does not parse, the timestamp is the
zero time. -/
theorem C9_dnsmasq_year_inference (nowYear : Nat) (line : Str) (entry : LogEntry)
    (h : parseDnsmasq nowYear line = some entry) :
    (∀ t, mdtParse (dnsmasqTsPart line) = some t →
      entry.Timestamp = addYears t nowYear ∧
      entry.Timestamp.year = (nowYear : Int) ∧
      (¬(t.month = 2 ∧ t.day = 29 ∧ isLeapYear ((nowYear : Int)) = false) →
        entry.Timestamp = ⟨(nowYear : Int), t.month, t.day, t.hour, t.minute, t.second⟩) ∧
      ((t.month = 2 ∧ t.day = 29 ∧ isLeapYear ((nowYear : Int)) = false) →
        entry.Timestamp = ⟨(nowYear : Int), 3, 1, t.hour, t.minute, t.second⟩)) ∧
    (mdtParse (dnsmasqTsPart line) = none → entry.Timestamp = GoTime.zero) := by
  have hts := parseDnsmasq_ts nowYear line entry h
  constructor
  · intro t hmt
    have hy : t.year = 0 := mdtParse_year _ t hmt
    have h1 : entry.Timestamp = addYears t nowYear := by
      rw [hts]
      unfold dnsmasqTs
      rw [hmt]
    refine ⟨h1, ?_, ?_, ?_⟩
    · rw [h1, addYears_year, hy]
      simp
    · intro hnot
      have hcond : ¬(t.month = 2 ∧ t.day = 29 ∧
          isLeapYear (t.year + (nowYear : Int)) = false) := by
        rw [hy]
        simpa using hnot
      rw [h1]
      unfold addYears
      rw [if_neg hcond, hy]
      simp
    · intro hpos
      have hcond : t.month = 2 ∧ t.day = 29 ∧
          isLeapYear (t.year + (nowYear : Int)) = false := by
        rw [hy]
        simpa using hpos
      rw [h1]
      unfold addYears
      rw [if_pos hcond, hy]
      simp
  · intro hmt
    rw [hts]
    unfold dnsmasqTs
    rw [hmt]

/-- Witness for the amended C9 at a concrete dnsmasq line dated `Jun 10`:
the entry's timestamp is the year-0 parse shifted into the current year. -/
theorem C9_dnsmasq_year_inference_witness :
    (⟨⟨2025, 6, 10, 8, 30, 0⟩, ("192.168.1.50").toList, ("api.openai.com").toList,
        [], [], [], 0,
        ("Jun 10 08:30:00 dnsmasq[1234]: query[A] api.openai.com from 192.168.1.50").toList⟩ :
      LogEntry).Timestamp = addYears ⟨0, 6, 10, 8, 30, 0⟩ 2025 :=
  ((C9_dnsmasq_year_inference 2025
      (("Jun 10 08:30:00 dnsmasq[1234]: query[A] api.openai.com from 192.168.1.50").toList)
      ⟨⟨2025, 6, 10, 8, 30, 0⟩, ("192.168.1.50").toList, ("api.openai.com").toList,
        [], [], [], 0,
        ("Jun 10 08:30:00 dnsmasq[1234]: query[A] api.openai.com from 192.168.1.50").toList⟩
      (by decide)).1 ⟨0, 6, 10, 8, 30, 0⟩ (by decide)).1
